import Mathlib

/-
Verification development for the terrain-mapper core
(`src/scripts/Terrain.js` and the settings/module wiring).

The file shallowly embeds:
  * the `TerrainMap` identifier allocator (a `Map` subclass keyed by
    JavaScript numbers, with a private next-candidate pointer),
  * the `Terrain` entity attribute model (typed accessors forwarding to
    active-effect flags, `elevationMinMax`),
  * the portable-form round trip (`toJSON` / `updateSource`) and the
    collection replace protocol (`replaceFromJSON`),
and proves the spec's claims about them.

JavaScript numbers are modelled as rationals plus an explicit NaN value;
every arithmetic step the source performs on ids (`+ 1`, `- 1`, `>`,
`===`, `Number.isInteger`, SameValueZero key equality) is reproduced with
its JS semantics, including NaN propagation and `NaN !== NaN`.
-/

/-- A JavaScript number as it occurs in the id map: a finite value
(a rational covers every value the map operations produce) or `NaN`. -/
inductive JsNum where
  | num (q : ℚ)
  | nan
deriving DecidableEq

/-- Rational addition written through `mkRat` so that the kernel can
evaluate it on concrete inputs (`Rat.add` itself is irreducible); proved
equal to `+` below. -/
def qadd (a b : ℚ) : ℚ :=
  mkRat (a.num * b.den + b.num * a.den) (a.den * b.den)

/-- Rational subtraction written through `mkRat`; proved equal to `-`. -/
def qsub (a b : ℚ) : ℚ :=
  mkRat (a.num * b.den - b.num * a.den) (a.den * b.den)

theorem qadd_eq (a b : ℚ) : qadd a b = a + b := by
  conv_rhs =>
    rw [← Rat.num_divInt_den a, ← Rat.num_divInt_den b,
      Rat.divInt_add_divInt _ _ (Int.natCast_ne_zero.mpr a.den_ne_zero)
        (Int.natCast_ne_zero.mpr b.den_ne_zero)]
  rw [qadd, Rat.mkRat_eq_divInt]
  push_cast
  ring_nf

theorem qsub_eq (a b : ℚ) : qsub a b = a - b := by
  conv_rhs =>
    rw [← Rat.num_divInt_den a, ← Rat.num_divInt_den b,
      Rat.divInt_sub_divInt _ _ (Int.natCast_ne_zero.mpr a.den_ne_zero)
        (Int.natCast_ne_zero.mpr b.den_ne_zero)]
  rw [qsub, Rat.mkRat_eq_divInt]
  push_cast
  ring_nf

/-- JS `+` on numbers: NaN propagates. -/
def jadd : JsNum → JsNum → JsNum
  | .num a, .num b => .num (qadd a b)
  | _, _ => .nan

/-- JS `-` on numbers: NaN propagates. -/
def jsub : JsNum → JsNum → JsNum
  | .num a, .num b => .num (qsub a b)
  | _, _ => .nan

theorem jadd_num (a b : ℚ) :
    jadd (.num a) (.num b) = .num (a + b) := by
  rw [jadd, qadd_eq]

theorem jsub_num (a b : ℚ) :
    jsub (.num a) (.num b) = .num (a - b) := by
  rw [jsub, qsub_eq]

/-- JS `<`: any comparison involving NaN is false. -/
def jlt : JsNum → JsNum → Bool
  | .num a, .num b => decide (a < b)
  | _, _ => false

/-- JS `>`: any comparison involving NaN is false. -/
def jgt : JsNum → JsNum → Bool
  | .num a, .num b => decide (b < a)
  | _, _ => false

/-- JS strict equality `===` on numbers: `NaN === NaN` is false. -/
def jeqS : JsNum → JsNum → Bool
  | .num a, .num b => decide (a = b)
  | _, _ => false

/-- SameValueZero, the key equality used by JS `Map`: unlike `===`,
NaN matches NaN. -/
def svz : JsNum → JsNum → Bool
  | .num a, .num b => decide (a = b)
  | .nan, .nan => true
  | _, _ => false

/-- `Number.isInteger`: true for finite integral values, false for NaN. -/
def jsIsInteger : JsNum → Bool
  | .num q => decide (q.den = 1)
  | .nan => false

/-- Console output produced by `TerrainMap.set` / `TerrainMap.add`:
the two `console.error` messages and the capacity `console.warn`. -/
inductive LogMsg where
  | errOccupied
  | errInvalid (id : JsNum)
  | warnExceedsMax (id : JsNum)
deriving DecidableEq

/-- Whether a log message is one of the `console.error` messages. -/
def LogMsg.isError : LogMsg → Bool
  | .errOccupied => true
  | .errInvalid _ => true
  | .warnExceedsMax _ => false

/-- The `TerrainMap` subclass of `Map`: insertion-ordered entries keyed by
JS numbers (SameValueZero equality) plus the private `#nextId` pointer. -/
structure TerrainMap (α : Type) where
  entries : List (JsNum × α)
  nextId : JsNum

/-- `MAX_TERRAINS = Math.pow(2, 5) - 1`. -/
def MAX_TERRAINS : JsNum := .num 31

/-- A freshly constructed `TerrainMap`: no entries, `#nextId = 1`. -/
def TerrainMap.fresh (α : Type) : TerrainMap α := ⟨[], .num 1⟩

/-- `Map.prototype.size`. -/
def TerrainMap.size {α : Type} (m : TerrainMap α) : ℕ := m.entries.length

/-- `[...this.keys()]`: the keys in insertion order. -/
def TerrainMap.keysList {α : Type} (m : TerrainMap α) : List JsNum :=
  m.entries.map Prod.fst

/-- `Map.prototype.has`, with SameValueZero key equality. -/
def TerrainMap.hasKey {α : Type} (m : TerrainMap α) (k : JsNum) : Bool :=
  m.entries.any (fun p => svz p.1 k)

/-- `Map.prototype.set` on the underlying entry list: update the value in
place when a SameValueZero-equal key exists, otherwise append. -/
def entriesSet {α : Type} : List (JsNum × α) → JsNum → α → List (JsNum × α)
  | [], k, v => [(k, v)]
  | (k0, v0) :: rest, k, v =>
    if svz k0 k then (k0, v) :: rest else (k0, v0) :: entriesSet rest k v

/-- `Map.prototype.delete` on the underlying entry list: remove the entry
with a SameValueZero-equal key, if any. -/
def entriesDelete {α : Type} : List (JsNum × α) → JsNum → List (JsNum × α)
  | [], _ => []
  | (k0, v0) :: rest, k =>
    if svz k0 k then rest else (k0, v0) :: entriesDelete rest k

/-- The comparator order underlying `sort((a, b) => a - b)`.  On finite
numbers it is the numeric order.  With a NaN key the JS comparator is
inconsistent and the resulting order is implementation-defined; the model
fixes one order (NaN first), which no claim depends on. -/
def jleB : JsNum → JsNum → Bool
  | .num a, .num b => decide (a ≤ b)
  | .nan, _ => true
  | .num _, .nan => false

/-- `jleB` as a relation, for `List.insertionSort`. -/
def jleR (a b : JsNum) : Prop := jleB a b = true

instance : DecidableRel jleR := fun a b =>
  inferInstanceAs (Decidable (jleB a b = true))

instance : IsTotal JsNum jleR := by
  constructor
  intro a b
  rcases a with qa | _ <;> rcases b with qb | _ <;> simp [jleR, jleB]
  exact le_total qa qb

instance : IsTrans JsNum jleR := by
  constructor
  intro a b c hab hbc
  rcases a with qa | _ <;> rcases b with qb | _ <;> rcases c with qc | _ <;>
    simp_all [jleR, jleB]
  exact le_trans hab hbc

/-- `[...this.keys()].sort((a, b) => a - b)`: ECMA sort returns a sorted
permutation; over distinct numeric keys (the only case the claims reach)
that permutation is unique and equals the insertion sort. -/
def sortKeys (l : List JsNum) : List JsNum := List.insertionSort jleR l

/-- `keys.find((k, idx) => keys[idx + 1] !== k + 1)`: the first key whose
successor in the sorted list is not `k + 1`.  For the last element the
successor is `undefined`, which is `!==` any number, so a nonempty list
always yields its first consecutive run's endpoint. -/
def findBreak : List JsNum → Option JsNum
  | [] => none
  | [k] => some k
  | k :: k2 :: rest =>
    if jeqS k2 (jadd k (.num 1)) then findBreak (k2 :: rest) else some k

/-- `TerrainMap.#findNextId`, called after each mutation while `#nextId`
still holds its previous value.  Fast path: if the size equals
`#nextId - 1`, return `#nextId + 1`.  Slow path: sort the keys and return
the end of the first consecutive run plus one; on an empty key list
`find` yields `undefined`, `undefined + 1` is NaN, and `NaN ?? 1` is NaN
(NaN is not nullish), so the result is NaN. -/
def TerrainMap.findNextId {α : Type} (m : TerrainMap α) : JsNum :=
  if jeqS (.num (m.size : ℚ)) (jsub m.nextId (.num 1)) then
    jadd m.nextId (.num 1)
  else
    match findBreak (sortKeys m.keysList) with
    | some k => jadd k (.num 1)
    | none => .nan

/-- `TerrainMap.set(id, terrain, override = false)`.  A nullish `id`
defaults to `#nextId`.  Returns the assigned id (or `undefined` on the
error paths), the resulting map, and the console output. -/
def TerrainMap.set {α : Type} (m : TerrainMap α) (id0 : Option JsNum)
    (terrain : α) (override : Bool) :
    Option JsNum × TerrainMap α × List LogMsg :=
  let id := id0.getD m.nextId
  if !override && m.hasKey id then
    (none, m, [.errOccupied])
  else if !jsIsInteger id || jlt id (.num 1) then
    (none, m, [.errInvalid id])
  else
    let warns := if jgt id MAX_TERRAINS then [LogMsg.warnExceedsMax id] else []
    let m1 : TerrainMap α := ⟨entriesSet m.entries id terrain, m.nextId⟩
    (some id, ⟨m1.entries, m1.findNextId⟩, warns)

/-- `TerrainMap.add(terrain)`: insert under `#nextId` unconditionally,
warn when that id exceeds `MAX_TERRAINS`, recompute the pointer, and
return the assigned id. -/
def TerrainMap.add {α : Type} (m : TerrainMap α) (terrain : α) :
    JsNum × TerrainMap α × List LogMsg :=
  let id := m.nextId
  let warns := if jgt id MAX_TERRAINS then [LogMsg.warnExceedsMax id] else []
  let m1 : TerrainMap α := ⟨entriesSet m.entries id terrain, m.nextId⟩
  (id, ⟨m1.entries, m1.findNextId⟩, warns)

/-- `TerrainMap.clear()`: remove all entries and reset `#nextId` to 1. -/
def TerrainMap.clear {α : Type} (_m : TerrainMap α) : TerrainMap α :=
  ⟨[], .num 1⟩

/-- `TerrainMap.delete(id)`: remove the entry if present; when the removed
id lies below `#nextId`, recompute the pointer. -/
def TerrainMap.del {α : Type} (m : TerrainMap α) (id : JsNum) :
    Bool × TerrainMap α :=
  if !m.hasKey id then (false, m)
  else
    let m1 : TerrainMap α := ⟨entriesDelete m.entries id, m.nextId⟩
    if jgt m.nextId id then (true, ⟨m1.entries, m1.findNextId⟩)
    else (true, m1)

/-- Run a sequence of `add` calls, collecting the returned ids. -/
def TerrainMap.addAll {α : Type} : List α → TerrainMap α →
    List JsNum × TerrainMap α
  | [], m => ([], m)
  | t :: rest, m =>
    let r := m.add t
    let r2 := TerrainMap.addAll rest r.2.1
    (r.1 :: r2.1, r2.2)

/-- A JavaScript value held by a terrain flag (numbers, booleans,
`undefined`, NaN; per the `TerrainConfig` typedef the flag-stored
attributes are numeric, boolean or enum valued). -/
inductive JVal where
  | num (q : ℚ)
  | bool (b : Bool)
  | undef
  | nan
deriving DecidableEq

/-- ToNumber coercion used by JS `+` on non-string operands:
booleans become 0/1, `undefined` and NaN have no finite value. -/
def jvToNumber : JVal → Option ℚ
  | .num q => some q
  | .bool b => some (if b then 1 else 0)
  | .undef => none
  | .nan => none

/-- JS `+` on flag values: both operands are coerced with ToNumber and
added; `undefined` or NaN operands yield NaN. -/
def jvAdd (a b : JVal) : JVal :=
  match jvToNumber a, jvToNumber b with
  | some x, some y => .num (qadd x y)
  | _, _ => .nan

theorem jvAdd_num (a b : ℚ) :
    jvAdd (.num a) (.num b) = .num (a + b) := by
  rw [jvAdd]
  simp [jvToNumber, qadd_eq]

/-- Modelled from the spec: `const.js` is absent from the sources, so the
`FLAGS` key constants are reconstructed.  `FLAGS.ANCHOR` is an object with
`VALUE` and `CHOICES` members (Terrain.js reads `FLAGS.ANCHOR.VALUE` and
its typedef names `FLAGS.ANCHOR.CHOICES`), so as a flag key the `ANCHOR`
object is a key distinct from the `ANCHOR.VALUE` string; the remaining
flags are plain string keys, one per attribute. -/
inductive FlagKey where
  | anchorValue
  | anchorObj
  | offset
  | rangeBelow
  | rangeAbove
  | userVisible
  | color
deriving DecidableEq

/-- The active effect backing a terrain, reduced to the flag store the
accessors read and write (`getFlag` / `setFlag` under `MODULE_ID`). -/
structure ActiveEffectM where
  flags : FlagKey → JVal

/-- The `Terrain` entity: a typed view over its active effect. -/
structure Terrain where
  activeEffect : ActiveEffectM

/-- `Terrain.#getAEFlag(flag)`: `this.activeEffect.getFlag(MODULE_ID, flag)`. -/
def Terrain.getAEFlag (t : Terrain) (k : FlagKey) : JVal :=
  t.activeEffect.flags k

/-- `Terrain.#setAEFlag(flag, value)`:
`this.activeEffect.setFlag(MODULE_ID, flag, value)`. -/
def Terrain.setAEFlag (t : Terrain) (k : FlagKey) (v : JVal) : Terrain :=
  ⟨⟨fun k2 => if k2 = k then v else t.activeEffect.flags k2⟩⟩

/-- Getter `anchor`: reads `FLAGS.ANCHOR.VALUE`. -/
def Terrain.anchorGet (t : Terrain) : JVal := t.getAEFlag .anchorValue

/-- Synchronous setter `anchor`: writes `FLAGS.ANCHOR.VALUE`. -/
def Terrain.anchorSetter (t : Terrain) (v : JVal) : Terrain :=
  t.setAEFlag .anchorValue v

/-- Asynchronous `setAnchor(value)`: writes under `FLAGS.ANCHOR` — the
object itself, not `FLAGS.ANCHOR.VALUE`. -/
def Terrain.setAnchor (t : Terrain) (v : JVal) : Terrain :=
  t.setAEFlag .anchorObj v

/-- Getter `offset`. -/
def Terrain.offsetGet (t : Terrain) : JVal := t.getAEFlag .offset

/-- Synchronous setter `offset`. -/
def Terrain.offsetSetter (t : Terrain) (v : JVal) : Terrain :=
  t.setAEFlag .offset v

/-- Asynchronous `setOffset(value)`. -/
def Terrain.setOffset (t : Terrain) (v : JVal) : Terrain :=
  t.setAEFlag .offset v

/-- Getter `rangeBelow`. -/
def Terrain.rangeBelowGet (t : Terrain) : JVal := t.getAEFlag .rangeBelow

/-- Synchronous setter `rangeBelow`. -/
def Terrain.rangeBelowSetter (t : Terrain) (v : JVal) : Terrain :=
  t.setAEFlag .rangeBelow v

/-- Asynchronous `setRangeBelow(value)`. -/
def Terrain.setRangeBelow (t : Terrain) (v : JVal) : Terrain :=
  t.setAEFlag .rangeBelow v

/-- Getter `rangeAbove`. -/
def Terrain.rangeAboveGet (t : Terrain) : JVal := t.getAEFlag .rangeAbove

/-- Synchronous setter `rangeAbove`. -/
def Terrain.rangeAboveSetter (t : Terrain) (v : JVal) : Terrain :=
  t.setAEFlag .rangeAbove v

/-- Asynchronous `setRangeAbove(value)`. -/
def Terrain.setRangeAbove (t : Terrain) (v : JVal) : Terrain :=
  t.setAEFlag .rangeAbove v

/-- Getter `userVisible`. -/
def Terrain.userVisibleGet (t : Terrain) : JVal := t.getAEFlag .userVisible

/-- Synchronous setter `userVisible`. -/
def Terrain.userVisibleSetter (t : Terrain) (v : JVal) : Terrain :=
  t.setAEFlag .userVisible v

/-- Asynchronous `setUserVisible(value)`. -/
def Terrain.setUserVisible (t : Terrain) (v : JVal) : Terrain :=
  t.setAEFlag .userVisible v

/-- Getter `color`. -/
def Terrain.colorGet (t : Terrain) : JVal := t.getAEFlag .color

/-- Synchronous setter `color`. -/
def Terrain.colorSetter (t : Terrain) (v : JVal) : Terrain :=
  t.setAEFlag .color v

/-- Asynchronous `setColor(value)`. -/
def Terrain.setColor (t : Terrain) (v : JVal) : Terrain :=
  t.setAEFlag .color v

/-- The `{min, max}` object returned by `elevationMinMax`. -/
structure MinMaxE where
  min : JVal
  max : JVal
deriving DecidableEq

/-- `Terrain.elevationMinMax(anchorE)`: `e = anchorE + offset`,
`min = e + rangeBelow`, `max = e + rangeAbove`, with no clamping. -/
def Terrain.elevationMinMax (t : Terrain) (anchorE : JVal) : MinMaxE :=
  let e := jvAdd anchorE t.offsetGet
  ⟨jvAdd e t.rangeBelowGet, jvAdd e t.rangeAboveGet⟩

/-- An attribute key of the terrain configuration object
(`TerrainConfig` plus the `id` of the backing effect). -/
inductive CKey where
  | id
  | activeEffect
  | name
  | descr
  | icon
  | color
  | anchor
  | offset
  | rangeAbove
  | rangeBelow
  | userVisible
deriving DecidableEq

/-- A value held by a configuration attribute: a primitive, the live
`ActiveEffect` object wrapping a backing-record snapshot `δ`, the plain
serialized snapshot produced by `ActiveEffect#toJSON`, or `undefined`. -/
inductive CVal (δ : Type) where
  | num (q : ℚ)
  | bool (b : Bool)
  | undef
  | eff (d : δ)
  | doc (d : δ)
deriving DecidableEq

/-- JS truthiness of a configuration value (objects are always truthy). -/
def cvTruthy {δ : Type} : CVal δ → Bool
  | .num q => decide (q ≠ 0)
  | .bool b => b
  | .undef => false
  | .eff _ => true
  | .doc _ => true

/-- Modelled from the spec: the `config` getter of `Terrain` is referenced
by `toJSON` / `updateSource` but not defined in the sources; per section 4.2
it is the entity's full attribute set, an object mapping attribute keys to
values.  Modelled as an ordered association list with JS object semantics
(at most one entry per key). -/
def Config (δ : Type) : Type := List (CKey × CVal δ)

/-- Property read on a config object (`undefined` when absent). -/
def objGet {δ : Type} : Config δ → CKey → CVal δ
  | [], _ => .undef
  | (k0, v0) :: rest, k => if k0 = k then v0 else objGet rest k

/-- Property write on a config object: overwrite in place, or append a new
property in insertion order. -/
def objSet {δ : Type} : Config δ → CKey → CVal δ → Config δ
  | [], k, v => [(k, v)]
  | (k0, v0) :: rest, k, v =>
    if k0 = k then (k0, v) :: rest else (k0, v0) :: objSet rest k v

/-- The keys of a config object in order. -/
def keysOf {δ : Type} (c : Config δ) : List CKey := c.map Prod.fst

/-- Modelled from the spec: `ActiveEffect#toJSON` (external Foundry API,
the Attribute Store's `toPortable` capability) serializes a live effect to
its plain snapshot.  Calling `.toJSON()` on a non-effect truthy value is a
JS runtime error and unreachable; mapped to the identity for totality. -/
def aeToJSON {δ : Type} : CVal δ → CVal δ
  | .eff d => .doc d
  | v => v

/-- Modelled from the spec: `new ActiveEffect(data)` (external Foundry
API, the Attribute Store's `fromPortable` capability) creates a live
effect from a plain snapshot.  Constructing it from anything but a
snapshot is unreachable under the claims; mapped to a default effect. -/
def newActiveEffect {δ : Type} [Inhabited δ] : CVal δ → CVal δ
  | .doc d => .eff d
  | _ => .eff default

/-- Modelled from the spec: `ActiveEffect#updateSource(data)` (external
Foundry API) replaces the effect's source data with the supplied snapshot
and returns the updated effect; on a non-snapshot argument the effect is
left unchanged (unreachable under the claims). -/
def aeUpdateSource {δ : Type} (old : CVal δ) : CVal δ → CVal δ
  | .doc d => .eff d
  | _ => old

/-- `Terrain.toJSON()`: copies the config and replaces `activeEffect` by
its serialized snapshot (or `undefined` when the entity has none). -/
def Config.toJSON {δ : Type} (e : Config δ) : Config δ :=
  let ae := objGet e .activeEffect
  objSet e .activeEffect (if cvTruthy ae then aeToJSON ae else .undef)

/-- `Terrain.updateSource(json)`: walk the entries of `json`; skip `id`
silently; for `activeEffect`, update the existing backing record or create
a new one from the snapshot when the destination has none; copy every
other attribute. -/
def Config.updateSource {δ : Type} [Inhabited δ] (dest json : Config δ) :
    Config δ :=
  json.foldl
    (fun cfg kv =>
      if kv.1 = CKey.id then cfg
      else if kv.1 = CKey.activeEffect then
        objSet cfg .activeEffect
          (if cvTruthy (objGet cfg .activeEffect) then
            aeUpdateSource (objGet cfg .activeEffect) kv.2
          else newActiveEffect kv.2)
      else objSet cfg kv.1 kv.2)
    dest

/-- The hidden terrains item: the collection of active-effect records that
persists all terrains. -/
structure TerrainsItem (δ : Type) where
  effects : List δ

/-- Modelled from the spec: `Item#importFromJSON` is Foundry core (the
external Attribute Store per section 6), absent from the sources.  Per
sections 4.3 and 5 it is a single logical unit: it parses the document and
atomically replaces the item's entire contents, or fails without mutating
anything, and the failure is reported to the caller (no silent catch).
The external parse/persist step is the parameter `imp`. -/
def importFromJSONItem {J E δ : Type} (imp : J → Except E (List δ))
    (_item : TerrainsItem δ) (json : J) : Except E (TerrainsItem δ) :=
  match imp json with
  | .ok effs => .ok ⟨effs⟩
  | .error e => .error e

/-- `Terrain.replaceFromJSON(json)`: awaits `item.importFromJSON(json)`
with no catch and no other mutation, so the external call's outcome is the
operation's outcome. -/
def Terrain.replaceFromJSON {J E δ : Type} (imp : J → Except E (List δ))
    (item : TerrainsItem δ) (json : J) : Except E (TerrainsItem δ) :=
  importFromJSONItem imp item json

/-- The embedding of a positive integer id as a JS number. -/
def natNum (n : ℕ) : JsNum := .num (n : ℚ)

/-- `p` is the smallest positive integer not currently in use as a key of
the map. -/
def IsLeastUnusedId {α : Type} (m : TerrainMap α) (p : ℕ) : Prop :=
  1 ≤ p ∧ natNum p ∉ m.keysList ∧
    ∀ j : ℕ, 1 ≤ j → j < p → natNum j ∈ m.keysList

/-- The map's keys are distinct positive integers. -/
def WellFormedKeys {α : Type} (m : TerrainMap α) : Prop :=
  ∃ L : List ℕ, m.keysList = L.map natNum ∧ L.Nodup ∧ ∀ n ∈ L, 1 ≤ n

/-- The next-candidate pointer equals the smallest unused positive id. -/
def PointerAccurate {α : Type} (m : TerrainMap α) : Prop :=
  ∃ p : ℕ, m.nextId = natNum p ∧ IsLeastUnusedId m p

/-- SameValueZero is reflexive. -/
theorem svz_refl (k : JsNum) : svz k k = true := by
  cases k <;> simp [svz]

/-- Setting an existing-or-new key makes `hasKey` true. -/
theorem entriesSet_hasKey {α : Type} (l : List (JsNum × α)) (k : JsNum)
    (v : α) : (entriesSet l k v).any (fun p => svz p.1 k) = true := by
  induction l with
  | nil => simp [entriesSet, svz_refl]
  | cons hd tl ih =>
    obtain ⟨k0, v0⟩ := hd
    by_cases h : svz k0 k = true
    · simp [entriesSet, h]
    · simp only [entriesSet, Bool.not_eq_true] at h ⊢
      simp [h, ih]

/-- C10: `set` with a nullish id behaves exactly as `set` with the current
next-candidate pointer as id: the id defaults to `#nextId`, the same
occupancy and validity checks apply, and on success that id is returned. -/
theorem terrainMap_set_nullish_defaults {α : Type} (m : TerrainMap α)
    (t : α) (ov : Bool) :
    m.set none t ov = m.set (some m.nextId) t ov ∧
    ((m.set none t ov).1 = none ∨ (m.set none t ov).1 = some m.nextId) := by
  refine ⟨rfl, ?_⟩
  unfold TerrainMap.set
  dsimp only
  split_ifs <;> simp

/-- C4: `set` with `override = false` on an occupied id, or with an id
that is not a positive integer, returns no id, leaves the map (entries and
pointer) unchanged, and reports exactly one error. -/
theorem terrainMap_setExplicit_fails {α : Type} (m : TerrainMap α) (t : α)
    (id : JsNum)
    (h : m.hasKey id = true ∨ jsIsInteger id = false ∨
      jlt id (.num 1) = true) :
    (m.set (some id) t false).1 = none ∧
    (m.set (some id) t false).2.1 = m ∧
    ∃ msg, (m.set (some id) t false).2.2 = [msg] ∧ msg.isError = true := by
  by_cases hocc : m.hasKey id = true
  · refine ⟨?_, ?_, .errOccupied, ?_, rfl⟩ <;>
      simp [TerrainMap.set, hocc]
  · have hocc2 : m.hasKey id = false := by
      simpa using hocc
    have hinv : jsIsInteger id = false ∨ jlt id (.num 1) = true := by
      rcases h with h | h | h
      · exact absurd h hocc
      · exact Or.inl h
      · exact Or.inr h
    rcases hinv with h2 | h2
    · refine ⟨?_, ?_, .errInvalid id, ?_, rfl⟩ <;>
        simp [TerrainMap.set, hocc2, h2]
    · refine ⟨?_, ?_, .errInvalid id, ?_, rfl⟩ <;>
        simp [TerrainMap.set, hocc2, h2]

/-- C4 witness: a concrete occupied id (1 on a map holding 1), and the
concrete invalid ids 0 and 1.5, all fail without mutating the map. -/
theorem terrainMap_setExplicit_fails_witness :
    ((TerrainMap.mk [(JsNum.num 1, ())] (JsNum.num 2)).set
        (some (JsNum.num 1)) () false).2.1 =
      TerrainMap.mk [(JsNum.num 1, ())] (JsNum.num 2) ∧
    ((TerrainMap.mk [(JsNum.num 1, ())] (JsNum.num 2)).set
        (some (JsNum.num 0)) () false).1 = none ∧
    ((TerrainMap.mk [(JsNum.num 1, ())] (JsNum.num 2)).set
        (some (JsNum.num (mkRat 3 2))) () false).1 = none :=
  ⟨(terrainMap_setExplicit_fails _ () _ (Or.inl (by decide))).2.1,
   (terrainMap_setExplicit_fails _ () _ (Or.inr (Or.inr (by decide)))).1,
   (terrainMap_setExplicit_fails _ () _ (Or.inr (Or.inl (by decide)))).1⟩

/-- C3 evaluation: from a fresh map, two `add` calls assign 1 and 2 and
leave the pointer at 3; `delete(1)` opens 1 as the only gap below the
pointer, yet the recomputed pointer is 3 and the next `add` returns 3
instead of reusing 1 — contradicting the source's own comment that the
next id is always the smallest available. -/
theorem terrainMap_release_then_allocate_eval :
    (((TerrainMap.fresh Unit).add ()).2.1.add ()).2.1.nextId = .num 3 ∧
    (((TerrainMap.fresh Unit).add ()).2.1.add ()).2.1.hasKey (.num 1) =
      true ∧
    ((((TerrainMap.fresh Unit).add ()).2.1.add ()).2.1.del (.num 1)).1 =
      true ∧
    ((((TerrainMap.fresh Unit).add ()).2.1.add ()).2.1.del
        (.num 1)).2.hasKey (.num 1) = false ∧
    ((((TerrainMap.fresh Unit).add ()).2.1.add ()).2.1.del
        (.num 1)).2.hasKey (.num 2) = true ∧
    (((((TerrainMap.fresh Unit).add ()).2.1.add ()).2.1.del
        (.num 1)).2.add ()).1 = .num 3 := by
  decide

/-- C1 counterexample: the reachable state obtained from a fresh map by
`set(2, t)` has 1 unused, yet the auto-allocation `add` assigns 3, not the
smallest unused id 1. -/
theorem terrainMap_autoAllocate_not_smallest :
    (((TerrainMap.fresh Unit).set (some (.num 2)) () false).2.1.add
        ()).1 = .num 3 ∧
    JsNum.num 1 ∉
      ((TerrainMap.fresh Unit).set (some (.num 2)) () false).2.1.keysList := by
  decide

/-- Reduction of `set` on its success path. -/
theorem terrainMap_set_success {α : Type} (m : TerrainMap α) (t : α)
    (id : JsNum) (ov : Bool) (hocc : (!ov && m.hasKey id) = false)
    (hint : jsIsInteger id = true) (hlt : jlt id (.num 1) = false) :
    m.set (some id) t ov =
      (some id,
       ⟨entriesSet m.entries id t,
        TerrainMap.findNextId ⟨entriesSet m.entries id t, m.nextId⟩⟩,
       if jgt id MAX_TERRAINS then [LogMsg.warnExceedsMax id] else []) := by
  simp [TerrainMap.set, hocc, hint, hlt]

/-- Unfolding of `add` into its components. -/
theorem terrainMap_add_unfold {α : Type} (m : TerrainMap α) (t : α) :
    m.add t =
      (m.nextId,
       ⟨entriesSet m.entries m.nextId t,
        TerrainMap.findNextId ⟨entriesSet m.entries m.nextId t, m.nextId⟩⟩,
       if jgt m.nextId MAX_TERRAINS then [LogMsg.warnExceedsMax m.nextId]
       else []) := rfl

/-- C9: for an integral id beyond `MAX_TERRAINS` that is unoccupied (or
overridden), `set` still inserts the entry and returns the id with only a
warning; `add` likewise inserts and returns a pointer beyond the maximum
with only a warning.  Capacity is advisory, never a failure. -/
theorem terrainMap_capacity_warning {α : Type} :
    (∀ (m : TerrainMap α) (t : α) (ov : Bool) (n : ℕ), 31 < n →
      (ov = true ∨ m.hasKey (natNum n) = false) →
      (m.set (some (natNum n)) t ov).1 = some (natNum n) ∧
      (m.set (some (natNum n)) t ov).2.2 = [.warnExceedsMax (natNum n)] ∧
      (m.set (some (natNum n)) t ov).2.1.hasKey (natNum n) = true) ∧
    (∀ (m : TerrainMap α) (t : α) (n : ℕ), m.nextId = natNum n → 31 < n →
      (m.add t).1 = natNum n ∧
      (m.add t).2.2 = [.warnExceedsMax (natNum n)] ∧
      (m.add t).2.1.hasKey (natNum n) = true) := by
  have hgt : ∀ n : ℕ, 31 < n → jgt (natNum n) MAX_TERRAINS = true := by
    intro n h
    simp only [jgt, natNum, MAX_TERRAINS, decide_eq_true_eq]
    exact_mod_cast h
  constructor
  · intro m t ov n h31 hfree
    have hint : jsIsInteger (natNum n) = true := by
      simp [jsIsInteger, natNum]
    have hnlt : jlt (natNum n) (JsNum.num 1) = false := by
      simp only [jlt, natNum, decide_eq_false_iff_not, not_lt]
      exact_mod_cast Nat.one_le_iff_ne_zero.mpr (by omega)
    have hcond : (!ov && m.hasKey (natNum n)) = false := by
      rcases hfree with h | h <;> simp [h]
    rw [terrainMap_set_success m t (natNum n) ov hcond hint hnlt]
    refine ⟨rfl, by simp [hgt n h31], ?_⟩
    simp [TerrainMap.hasKey, entriesSet_hasKey]
  · intro m t n hnext h31
    rw [terrainMap_add_unfold m t, hnext]
    refine ⟨rfl, by simp [hgt n h31], ?_⟩
    simp [TerrainMap.hasKey, entriesSet_hasKey]

/-- C9 witness: `set(32)` on a fresh map inserts and returns 32 with only
a warning; from a state with pointer 33, `add` inserts and returns 33 with
only a warning. -/
theorem terrainMap_capacity_warning_witness :
    ((TerrainMap.fresh Unit).set (some (natNum 32)) () false).1 =
      some (natNum 32) ∧
    ((TerrainMap.fresh Unit).set (some (natNum 32)) () false).2.2 =
      [.warnExceedsMax (natNum 32)] ∧
    ((TerrainMap.mk [(natNum 32, ())] (natNum 33)).add ()).1 = natNum 33 ∧
    ((TerrainMap.mk [(natNum 32, ())] (natNum 33)).add ()).2.2 =
      [.warnExceedsMax (natNum 33)] ∧
    ((TerrainMap.mk [(natNum 32, ())] (natNum 33)).add ()).2.1.hasKey
      (natNum 33) = true :=
  ⟨((terrainMap_capacity_warning.1 (TerrainMap.fresh Unit) () false 32
      (by omega) (Or.inr (by decide)))).1,
   ((terrainMap_capacity_warning.1 (TerrainMap.fresh Unit) () false 32
      (by omega) (Or.inr (by decide)))).2.1,
   ((terrainMap_capacity_warning.2 (TerrainMap.mk [(natNum 32, ())]
      (natNum 33)) () 33 rfl (by omega))).1,
   ((terrainMap_capacity_warning.2 (TerrainMap.mk [(natNum 32, ())]
      (natNum 33)) () 33 rfl (by omega))).2.1,
   ((terrainMap_capacity_warning.2 (TerrainMap.mk [(natNum 32, ())]
      (natNum 33)) () 33 rfl (by omega))).2.2⟩

/-- C7: `elevationMinMax(a)` returns exactly
`{min: a + offset + rangeBelow, max: a + offset + rangeAbove}` with no
clamping, for every anchor elevation and numeric attribute values. -/
theorem terrain_elevationMinMax_formula (t : Terrain) (a o rb ra : ℚ)
    (ho : t.offsetGet = .num o) (hb : t.rangeBelowGet = .num rb)
    (hr : t.rangeAboveGet = .num ra) :
    t.elevationMinMax (.num a) = ⟨.num (a + o + rb), .num (a + o + ra)⟩ := by
  simp only [Terrain.elevationMinMax, ho, hb, hr, jvAdd_num]

/-- C7 witness: offset 5, rangeBelow -10, rangeAbove 20 at anchor 100
gives min 95 and max 125, matching the spec's example. -/
theorem terrain_elevationMinMax_witness :
    Terrain.elevationMinMax
      ⟨⟨fun k => match k with
        | .offset => .num 5
        | .rangeBelow => .num (-10)
        | .rangeAbove => .num 20
        | _ => .undef⟩⟩ (.num 100) = ⟨.num 95, .num 125⟩ := by
  rw [show ((95 : ℚ)) = 100 + 5 + (-10) by norm_num,
    show ((125 : ℚ)) = 100 + 5 + 20 by norm_num]
  exact terrain_elevationMinMax_formula _ 100 5 (-10) 20 rfl rfl rfl

/-- C8: the five attributes offset, rangeBelow, rangeAbove, userVisible
and color have synchronous and asynchronous setters performing the same
write; the anchor pair does not: the synchronous setter (and the getter)
use the key `FLAGS.ANCHOR.VALUE`, while `setAnchor` writes under the
distinct key `FLAGS.ANCHOR`, so a value stored through `setAnchor` is
never seen by the `anchor` getter. -/
theorem terrain_setAnchor_key_mismatch :
    (∀ (t : Terrain) (v : JVal), t.setOffset v = t.offsetSetter v) ∧
    (∀ (t : Terrain) (v : JVal), t.setRangeBelow v = t.rangeBelowSetter v) ∧
    (∀ (t : Terrain) (v : JVal), t.setRangeAbove v = t.rangeAboveSetter v) ∧
    (∀ (t : Terrain) (v : JVal),
      t.setUserVisible v = t.userVisibleSetter v) ∧
    (∀ (t : Terrain) (v : JVal), t.setColor v = t.colorSetter v) ∧
    Terrain.anchorGet
      (Terrain.anchorSetter ⟨⟨fun _ => .undef⟩⟩ (.num 1)) = .num 1 ∧
    Terrain.anchorGet
      (Terrain.setAnchor ⟨⟨fun _ => .undef⟩⟩ (.num 1)) = .undef :=
  ⟨fun _ _ => rfl, fun _ _ => rfl, fun _ _ => rfl, fun _ _ => rfl,
   fun _ _ => rfl, rfl, rfl⟩

/-- C5: `replaceFromJSON` forwards the external atomic import without a
catch: on success the collection is exactly the document's entities (the
complete post-replace state); on failure the error propagates to the
caller and the caller's collection is untouched (the complete pre-replace
state) — never a partial or silently emptied collection. -/
theorem terrain_replaceFromJSON_atomic {J E δ : Type}
    (imp : J → Except E (List δ)) (item : TerrainsItem δ) (json : J) :
    (∃ effs, imp json = .ok effs ∧
      Terrain.replaceFromJSON imp item json = .ok ⟨effs⟩) ∨
    (∃ e, imp json = .error e ∧
      Terrain.replaceFromJSON imp item json = .error e) := by
  cases h : imp json with
  | error e =>
    exact Or.inr ⟨e, rfl, by
      simp [Terrain.replaceFromJSON, importFromJSONItem, h]⟩
  | ok effs =>
    exact Or.inl ⟨effs, rfl, by
      simp [Terrain.replaceFromJSON, importFromJSONItem, h]⟩

theorem natNum_inj {a b : ℕ} : natNum a = natNum b ↔ a = b := by
  constructor
  · intro h
    have : ((a : ℚ)) = b := by
      simpa [natNum] using h
    exact_mod_cast this
  · intro h
    rw [h]

theorem svz_natNum (a b : ℕ) : svz (natNum a) (natNum b) = decide (a = b) := by
  simp only [svz, natNum, decide_eq_decide]
  exact Nat.cast_inj

theorem mem_map_natNum {a : ℕ} {L : List ℕ} :
    natNum a ∈ L.map natNum ↔ a ∈ L := by
  constructor
  · intro h
    obtain ⟨b, hb, hba⟩ := List.mem_map.mp h
    exact (natNum_inj.mp hba) ▸ hb
  · intro h
    exact List.mem_map_of_mem natNum h

/-- `Map.set` appends when no SameValueZero-equal key is present. -/
theorem entriesSet_append {α : Type} (l : List (JsNum × α)) (k : JsNum)
    (v : α) (h : ∀ p ∈ l, svz p.1 k = false) :
    entriesSet l k v = l ++ [(k, v)] := by
  induction l with
  | nil => rfl
  | cons hd tl ih =>
    obtain ⟨k0, v0⟩ := hd
    have h0 : svz k0 k = false := h (k0, v0) (by simp)
    simp only [entriesSet, h0, Bool.false_eq_true, if_false, List.cons_append,
      List.cons.injEq, true_and]
    exact ih (fun p hp => h p (by simp [hp]))

/-- The nat-level mirror of `findBreak`. -/
def findBreakNat : List ℕ → Option ℕ
  | [] => none
  | [a] => some a
  | a :: b :: t => if b = a + 1 then findBreakNat (b :: t) else some a

theorem jadd_natNum_one (a : ℕ) :
    jadd (natNum a) (.num 1) = natNum (a + 1) := by
  simp only [natNum, jadd_num]
  norm_num

theorem findBreak_map_natNum (l : List ℕ) :
    findBreak (l.map natNum) = (findBreakNat l).map natNum := by
  induction l with
  | nil => rfl
  | cons a t ih =>
    cases t with
    | nil => rfl
    | cons b t2 =>
      have hcond : jeqS (natNum b) (jadd (natNum a) (.num 1)) =
          decide (b = a + 1) := by
        rw [jadd_natNum_one]
        simp only [jeqS, natNum, decide_eq_decide]
        exact Nat.cast_inj
      by_cases hb : b = a + 1
      · subst hb
        have hc : jeqS (natNum (a + 1)) (jadd (natNum a) (.num 1)) = true := by
          rw [hcond]
          simp
        simp only [List.map_cons, findBreak, findBreakNat, hc, if_true] at ih ⊢
        simpa using ih
      · have hc : jeqS (natNum b) (jadd (natNum a) (.num 1)) = false := by
          rw [hcond]
          simpa using hb
        simp only [List.map_cons, findBreak, findBreakNat, hc,
          Bool.false_eq_true, if_false, if_neg hb]
        rfl

theorem jleR_natNum (a b : ℕ) : jleR (natNum a) (natNum b) ↔ a ≤ b := by
  simp only [jleR, jleB, natNum, decide_eq_true_eq]
  exact Nat.cast_le

theorem sortKeys_map_natNum (l : List ℕ) :
    sortKeys (l.map natNum) =
      (List.insertionSort (fun a b => a ≤ b) l).map natNum := by
  rw [sortKeys]
  exact (List.map_insertionSort (fun a b => a ≤ b) jleR natNum l
    (fun a _ b _ => (jleR_natNum a b).symm)).symm

/-- On a strictly ascending list, `findBreakNat` returns the endpoint of
the initial consecutive run: every value from the head up to the result is
in the list, and the successor of the result is not. -/
theorem findBreakNat_spec :
    ∀ (l : List ℕ) (s : ℕ), (s :: l).Pairwise (fun a b => a < b) →
      ∃ r, findBreakNat (s :: l) = some r ∧ s ≤ r ∧
        (∀ j, s ≤ j → j ≤ r → j ∈ s :: l) ∧ (r + 1) ∉ s :: l := by
  intro l
  induction l with
  | nil =>
    intro s _
    refine ⟨s, rfl, le_refl s, ?_, ?_⟩
    · intro j h1 h2
      simp [le_antisymm h2 h1]
    · simp
  | cons b t ih =>
    intro s hpw
    rw [List.pairwise_cons] at hpw
    obtain ⟨hs, hpw2⟩ := hpw
    have hsb : s < b := hs b (by simp)
    by_cases hb : b = s + 1
    · subst hb
      obtain ⟨r, hfind, hbr, hrun, hout⟩ := ih (s + 1) hpw2
      refine ⟨r, ?_, ?_, ?_, ?_⟩
      · simpa [findBreakNat] using hfind
      · omega
      · intro j h1 h2
        by_cases hj : j = s
        · simp [hj]
        · have hbj : s + 1 ≤ j := by omega
          exact List.mem_cons_of_mem s (hrun j hbj h2)
      · intro hmem
        rcases List.mem_cons.mp hmem with h | h
        · omega
        · exact hout h
    · refine ⟨s, ?_, le_refl s, ?_, ?_⟩
      · simp [findBreakNat, hb]
      · intro j h1 h2
        simp [le_antisymm h2 h1]
      · intro hmem
        rcases List.mem_cons.mp hmem with h | h
        · omega
        · rcases List.mem_cons.mp h with h2 | h2
          · omega
          · have hlt := (List.pairwise_cons.mp hpw2).1 _ h2
            omega

/-- A sorted list of distinct naturals is strictly ascending. -/
theorem pairwise_lt_of_sorted_nodup (l : List ℕ)
    (hs : l.Sorted (fun a b => a ≤ b)) (hn : l.Nodup) :
    l.Pairwise (fun a b => a < b) :=
  (hs.and hn).imp (fun h => lt_of_le_of_ne h.1 h.2)

/-- A sorted list of values at least 1 that contains 1 starts with 1. -/
theorem sorted_head_one (M : List ℕ) (hs : M.Sorted (fun a b => a ≤ b))
    (h1 : 1 ∈ M) (hpos : ∀ x ∈ M, 1 ≤ x) : ∃ tl, M = 1 :: tl := by
  cases M with
  | nil => cases h1
  | cons h t =>
    rw [List.sorted_cons] at hs
    rcases List.mem_cons.mp h1 with hh | hh
    · exact ⟨t, by rw [hh]⟩
    · have hle : h ≤ 1 := hs.1 1 hh
      have hge : 1 ≤ h := hpos h (by simp)
      have hh1 : h = 1 := le_antisymm hle hge
      exact ⟨t, by rw [hh1]⟩

/-- Core correctness of `add` from a state whose keys are distinct
positive integers and whose pointer is the smallest unused positive id:
the pointer id is appended, and the recomputed pointer is again the
smallest unused positive id (one past the initial consecutive run). -/
theorem terrainMap_add_spec {α : Type} (m : TerrainMap α) (t : α)
    (L : List ℕ) (p : ℕ)
    (hK : m.keysList = L.map natNum)
    (hnd : L.Nodup)
    (hpos : ∀ n ∈ L, 1 ≤ n)
    (hnext : m.nextId = natNum p)
    (hp1 : 1 ≤ p)
    (hpL : p ∉ L)
    (hbelow : ∀ j : ℕ, 1 ≤ j → j < p → j ∈ L) :
    ∃ r : ℕ,
      (m.add t).1 = natNum p ∧
      (m.add t).2.1.keysList = (L ++ [p]).map natNum ∧
      (m.add t).2.1.nextId = natNum (r + 1) ∧
      p ≤ r ∧
      (∀ j : ℕ, 1 ≤ j → j ≤ r → j ∈ L ++ [p]) ∧
      (r + 1) ∉ L ++ [p] := by
  have hK2 : m.entries.map Prod.fst = L.map natNum := hK
  have hsvz : ∀ pr ∈ m.entries, svz pr.1 (natNum p) = false := by
    intro pr hpr
    have hmem : pr.1 ∈ m.entries.map Prod.fst := List.mem_map_of_mem _ hpr
    rw [hK2] at hmem
    obtain ⟨a, haL, hae⟩ := List.mem_map.mp hmem
    rw [← hae, svz_natNum]
    simp only [decide_eq_false_iff_not]
    intro h
    exact hpL (h ▸ haL)
  have hset : entriesSet m.entries (natNum p) t =
      m.entries ++ [(natNum p, t)] := entriesSet_append _ _ _ hsvz
  have hlenk : m.entries.length = L.length := by
    have h := congrArg List.length hK2
    simpa using h
  have hsub : List.range' 1 (p - 1) ⊆ L := by
    intro j hj
    rw [List.mem_range'_1] at hj
    exact hbelow j hj.1 (by omega)
  have hlenge : p - 1 ≤ L.length := by
    have h1 := (List.nodup_range' 1 (p - 1)).subperm hsub
    simpa using h1.length_le
  -- the sorted key list after insertion
  set M : List ℕ := List.insertionSort (fun a b => a ≤ b) (L ++ [p])
    with hMdef
  have hLp_nodup : (L ++ [p]).Nodup := by
    rw [List.nodup_append]
    exact ⟨hnd, List.nodup_singleton p, fun a haL hap =>
      hpL ((List.mem_singleton.mp hap) ▸ haL)⟩
  have hperm := List.perm_insertionSort (fun a b => a ≤ b) (L ++ [p])
  have hsortM := List.sorted_insertionSort (fun a b => a ≤ b) (L ++ [p])
  have hndM : M.Nodup := hperm.nodup_iff.mpr hLp_nodup
  have hpwM : M.Pairwise (fun a b => a < b) :=
    pairwise_lt_of_sorted_nodup M hsortM hndM
  have hmemM : ∀ x : ℕ, x ∈ M ↔ x ∈ L ++ [p] := fun x => hperm.mem_iff
  have hposM : ∀ x ∈ M, 1 ≤ x := by
    intro x hx
    rcases List.mem_append.mp ((hmemM x).mp hx) with h | h
    · exact hpos x h
    · rw [List.mem_singleton] at h
      omega
  have h1M : 1 ∈ M := by
    rw [hmemM]
    rcases eq_or_lt_of_le hp1 with h | h
    · exact List.mem_append.mpr (Or.inr (by simp [← h]))
    · exact List.mem_append.mpr (Or.inl (hbelow 1 (le_refl 1) h))
  obtain ⟨tl, hM⟩ := sorted_head_one M hsortM h1M hposM
  obtain ⟨r, hfind, h1r, hrun, hout⟩ := findBreakNat_spec tl 1 (hM ▸ hpwM)
  have hrun2 : ∀ j, 1 ≤ j → j ≤ r → j ∈ L ++ [p] := by
    intro j h1 h2
    exact (hmemM j).mp (hM ▸ hrun j h1 h2)
  have hout2 : (r + 1) ∉ L ++ [p] := by
    intro h
    exact hout (hM ▸ (hmemM _).mpr h)
  have hpr : p ≤ r := by
    by_contra hc
    push_neg at hc
    have hmem : r + 1 ∈ L ++ [p] := by
      rcases eq_or_lt_of_le (Nat.succ_le_of_lt hc) with h | h
      · exact List.mem_append.mpr (Or.inr (by
          rw [List.mem_singleton]
          omega))
      · exact List.mem_append.mpr (Or.inl (hbelow (r + 1) (by omega) h))
    exact hout2 hmem
  -- evaluate the three components of `add`
  have hkeys1 : (entriesSet m.entries (natNum p) t).map Prod.fst =
      (L ++ [p]).map natNum := by
    rw [hset, List.map_append, hK2, List.map_append]
    rfl
  have hfast : jeqS (.num ((L.length + 1 : ℕ) : ℚ))
      (jsub (natNum p) (.num 1)) = false := by
    have hsubq : jsub (natNum p) (.num 1) = .num ((p : ℚ) - 1) := by
      simp [natNum, jsub_num]
    rw [hsubq]
    simp only [jeqS, decide_eq_false_iff_not]
    intro heq
    have hq : ((L.length + 2 : ℕ) : ℚ) = (p : ℚ) := by
      push_cast at heq ⊢
      linarith
    have h2 : L.length + 2 = p := Nat.cast_injective hq
    omega
  have hfnid : TerrainMap.findNextId
      (⟨entriesSet m.entries (natNum p) t, natNum p⟩ : TerrainMap α) =
      natNum (r + 1) := by
    unfold TerrainMap.findNextId
    have hsize : (⟨entriesSet m.entries (natNum p) t, natNum p⟩ :
        TerrainMap α).size = L.length + 1 := by
      simp [TerrainMap.size, hset, hlenk]
    rw [hsize, hfast]
    have hkl : (⟨entriesSet m.entries (natNum p) t, natNum p⟩ :
        TerrainMap α).keysList = (L ++ [p]).map natNum := hkeys1
    simp only [Bool.false_eq_true, if_false, hkl, sortKeys_map_natNum,
      findBreak_map_natNum, ← hMdef, hM, hfind, Option.map_some]
    exact jadd_natNum_one r
  refine ⟨r, ?_, ?_, ?_, hpr, hrun2, hout2⟩
  · rw [terrainMap_add_unfold m t]
    exact hnext
  · rw [terrainMap_add_unfold m t]
    show (entriesSet m.entries m.nextId t).map Prod.fst = _
    rw [hnext, hkeys1]
  · rw [terrainMap_add_unfold m t]
    show TerrainMap.findNextId ⟨entriesSet m.entries m.nextId t, m.nextId⟩ =
      natNum (r + 1)
    rw [hnext]
    exact hfnid

/-- C1 (amended): auto-allocation assigns the smallest positive integer
not currently in use in every state whose keys are distinct positive
integers and whose next-candidate pointer is accurate (equal to that
smallest unused id) — as holds for a fresh map — and `add` re-establishes
both invariants, so the property persists across auto-allocations.  The
unrestricted claim over all reachable states is refuted by
the companion counterexample. -/
theorem terrainMap_add_least {α : Type} (m : TerrainMap α) (t : α)
    (hw : WellFormedKeys m) (hacc : PointerAccurate m) :
    (∃ p, (m.add t).1 = natNum p ∧ IsLeastUnusedId m p) ∧
    WellFormedKeys (m.add t).2.1 ∧ PointerAccurate (m.add t).2.1 := by
  obtain ⟨L, hK, hnd, hpos⟩ := hw
  obtain ⟨p, hnext, hp1, hpk, hbelow⟩ := hacc
  have hpL : p ∉ L := by
    intro h
    exact hpk (hK ▸ mem_map_natNum.mpr h)
  have hbelowL : ∀ j : ℕ, 1 ≤ j → j < p → j ∈ L := by
    intro j h1 h2
    exact mem_map_natNum.mp (hK ▸ hbelow j h1 h2)
  obtain ⟨r, hid, hkeys, hnext2, hpr, hrun, hout⟩ :=
    terrainMap_add_spec m t L p hK hnd hpos hnext hp1 hpL hbelowL
  refine ⟨⟨p, hid, hp1, hpk, hbelow⟩, ⟨L ++ [p], hkeys, ?_, ?_⟩,
    r + 1, hnext2, by omega, ?_, ?_⟩
  · rw [List.nodup_append]
    exact ⟨hnd, List.nodup_singleton p, fun a haL hap =>
      hpL ((List.mem_singleton.mp hap) ▸ haL)⟩
  · intro n hn
    rcases List.mem_append.mp hn with h | h
    · exact hpos n h
    · rw [List.mem_singleton] at h
      omega
  · rw [hkeys]
    intro h
    exact hout (mem_map_natNum.mp h)
  · intro j h1 h2
    rw [hkeys]
    exact mem_map_natNum.mpr (hrun j h1 (by omega))

/-- C1 witness: a fresh map is well formed with an accurate pointer, and
the first auto-allocation assigns 1 (the smallest unused id) while
preserving both invariants. -/
theorem terrainMap_add_least_witness :
    (∃ p, ((TerrainMap.fresh Unit).add ()).1 = natNum p ∧
      IsLeastUnusedId (TerrainMap.fresh Unit) p) ∧
    WellFormedKeys ((TerrainMap.fresh Unit).add ()).2.1 ∧
    PointerAccurate ((TerrainMap.fresh Unit).add ()).2.1 :=
  terrainMap_add_least (TerrainMap.fresh Unit) ()
    ⟨[], rfl, List.nodup_nil, by simp⟩
    ⟨1, by simp [TerrainMap.fresh, natNum], le_refl 1,
      by simp [TerrainMap.fresh, TerrainMap.keysList],
      fun j h1 h2 => absurd (lt_of_le_of_lt h1 h2) (lt_irrefl 1)⟩

/-- The ids returned by a run of `add` calls from a dense-prefix state. -/
theorem terrainMap_addAll_dense {α : Type} :
    ∀ (ts : List α) (k : ℕ) (m : TerrainMap α),
      m.keysList = (List.range' 1 k).map natNum →
      m.nextId = natNum (k + 1) →
      (TerrainMap.addAll ts m).1 =
        (List.range' (k + 1) ts.length).map natNum := by
  intro ts
  induction ts with
  | nil =>
    intro k m _ _
    rfl
  | cons t ts2 ih =>
    intro k m hK hnext
    have hnd : (List.range' 1 k).Nodup := List.nodup_range' 1 k
    have hpos : ∀ n ∈ List.range' 1 k, 1 ≤ n := by
      intro n hn
      exact (List.mem_range'_1.mp hn).1
    have hpL : k + 1 ∉ List.range' 1 k := by
      intro h
      have := (List.mem_range'_1.mp h).2
      omega
    have hbelow : ∀ j : ℕ, 1 ≤ j → j < k + 1 → j ∈ List.range' 1 k := by
      intro j h1 h2
      exact List.mem_range'_1.mpr ⟨h1, by omega⟩
    obtain ⟨r, hid, hkeys, hnext2, hpr, hrun, hout⟩ :=
      terrainMap_add_spec m t (List.range' 1 k) (k + 1) hK hnd hpos hnext
        (by omega) hpL hbelow
    have hrk : r = k + 1 := by
      have hrmem : r ∈ List.range' 1 k ++ [k + 1] :=
        hrun r (by omega) (le_refl r)
      rcases List.mem_append.mp hrmem with h | h
      · have := (List.mem_range'_1.mp h).2
        omega
      · rw [List.mem_singleton] at h
        omega
    subst hrk
    have hconcat : List.range' 1 k ++ [k + 1] = List.range' 1 (k + 1) := by
      rw [List.range'_concat]
      simp [Nat.add_comm]
    have hkeys2 : (TerrainMap.addAll (t :: ts2) m).1 =
        (m.add t).1 :: (TerrainMap.addAll ts2 (m.add t).2.1).1 := rfl
    rw [hkeys2, hid,
      ih (k + 1) (m.add t).2.1 (by rw [hkeys, hconcat]) hnext2]
    show natNum (k + 1) :: _ =
      (List.range' (k + 1) (ts2.length + 1)).map natNum
    rw [List.range'_succ]
    rfl

/-- C2: a run of n `add` calls on a freshly constructed map (and `clear`
resets any map to exactly that fresh state) returns the ids
1, 2, ..., n in that order. -/
theorem terrainMap_addAll_consecutive {α : Type} (ts : List α) :
    (TerrainMap.addAll ts (TerrainMap.fresh α)).1 =
      (List.range' 1 ts.length).map natNum ∧
    ∀ m : TerrainMap α, m.clear = TerrainMap.fresh α := by
  refine ⟨?_, fun m => rfl⟩
  have h := terrainMap_addAll_dense ts 0 (TerrainMap.fresh α) (by rfl)
    (by simp [TerrainMap.fresh, natNum])
  simpa using h

theorem objGet_objSet_self {δ : Type} (c : Config δ) (k : CKey)
    (v : CVal δ) : objGet (objSet c k v) k = v := by
  induction c with
  | nil => simp [objSet, objGet]
  | cons hd tl ih =>
    obtain ⟨k0, v0⟩ := hd
    by_cases h : k0 = k
    · simp [objSet, objGet, h]
    · simp [objSet, objGet, h, ih]

theorem objGet_objSet_other {δ : Type} (c : Config δ) (k k2 : CKey)
    (v : CVal δ) (h : k2 ≠ k) : objGet (objSet c k v) k2 = objGet c k2 := by
  have hk : ¬k = k2 := fun he => h he.symm
  induction c with
  | nil => simp [objSet, objGet, hk]
  | cons hd tl ih =>
    obtain ⟨k0, v0⟩ := hd
    by_cases h0 : k0 = k
    · subst h0
      simp [objSet, objGet, hk]
    · simp [objSet, objGet, h0, ih]

theorem keysOf_objSet {δ : Type} (c : Config δ) (k : CKey) (v : CVal δ) :
    keysOf (objSet c k v) =
      if k ∈ keysOf c then keysOf c else keysOf c ++ [k] := by
  induction c with
  | nil => simp [objSet, keysOf]
  | cons hd tl ih =>
    obtain ⟨k0, v0⟩ := hd
    by_cases h : k0 = k
    · simp [objSet, keysOf, h]
    · have hne : ¬k = k0 := fun he => h he.symm
      have hstep : keysOf (objSet ((k0, v0) :: tl) k v) =
          k0 :: keysOf (objSet tl k v) := by
        simp [objSet, keysOf, h]
      rw [hstep, ih]
      have hc : k ∈ keysOf ((k0, v0) :: tl) ↔ k = k0 ∨ k ∈ keysOf tl :=
        List.mem_cons
      by_cases hmem : k ∈ keysOf tl
      · rw [if_pos hmem, if_pos (hc.mpr (Or.inr hmem))]
        rfl
      · rw [if_neg hmem, if_neg (fun hx => (hc.mp hx).elim hne hmem)]
        rfl

theorem mem_keysOf_of_objGet_ne {δ : Type} (c : Config δ) (k : CKey)
    (h : objGet c k ≠ .undef) : k ∈ keysOf c := by
  induction c with
  | nil => exact absurd rfl h
  | cons hd tl ih =>
    obtain ⟨k0, v0⟩ := hd
    by_cases h0 : k0 = k
    · simp [keysOf, h0]
    · simp only [objGet, h0, if_false] at h
      have hmem := ih h
      simp only [keysOf, List.map_cons, List.mem_cons]
      simp only [keysOf] at hmem
      exact Or.inr hmem

theorem objGet_cons_ne {δ : Type} (k0 : CKey) (v0 : CVal δ)
    (rest : Config δ) (k : CKey) (h : ¬k0 = k) :
    objGet ((k0, v0) :: rest) k = objGet rest k := by
  show (if k0 = k then v0 else objGet rest k) = objGet rest k
  rw [if_neg h]

theorem objGet_cons_self {δ : Type} (k0 : CKey) (v0 : CVal δ)
    (rest : Config δ) : objGet ((k0, v0) :: rest) k0 = v0 := by
  show (if k0 = k0 then v0 else objGet rest k0) = v0
  rw [if_pos rfl]

theorem mem_keysOf_cons {δ : Type} (k0 : CKey) (v0 : CVal δ)
    (rest : Config δ) (k : CKey) :
    k ∈ keysOf ((k0, v0) :: rest) ↔ k = k0 ∨ k ∈ keysOf rest :=
  List.mem_cons

/-- Lookup in the result of `updateSource`: the `id` key keeps the
destination's value, every other key present in the source document gets
the document's value (transformed through the backing-record branch for
`activeEffect`), and absent keys keep the destination's value. -/
theorem updateSource_objGet {δ : Type} [Inhabited δ] :
    ∀ (json dest : Config δ) (k : CKey), (keysOf json).Nodup →
      objGet (Config.updateSource dest json) k =
        if k = CKey.id then objGet dest k
        else if k ∈ keysOf json then
          (if k = CKey.activeEffect then
            (if cvTruthy (objGet dest CKey.activeEffect) then
              aeUpdateSource (objGet dest CKey.activeEffect)
                (objGet json CKey.activeEffect)
            else newActiveEffect (objGet json CKey.activeEffect))
          else objGet json k)
        else objGet dest k := by
  intro json
  induction json with
  | nil =>
    intro dest k _
    have h0 : Config.updateSource dest [] = dest := rfl
    rw [h0]
    by_cases hk : k = CKey.id
    · rw [if_pos hk]
    · rw [if_neg hk,
        if_neg (by simp [keysOf] : ¬k ∈ keysOf ([] : Config δ))]
  | cons hd rest ih =>
    intro dest k hnd
    obtain ⟨k0, v0⟩ := hd
    have hnd2 : k0 ∉ keysOf rest ∧ (keysOf rest).Nodup :=
      List.nodup_cons.mp hnd
    have hstep : Config.updateSource dest ((k0, v0) :: rest) =
        Config.updateSource
          (if k0 = CKey.id then dest
           else if k0 = CKey.activeEffect then
             objSet dest .activeEffect
               (if cvTruthy (objGet dest .activeEffect) then
                 aeUpdateSource (objGet dest .activeEffect) v0
               else newActiveEffect v0)
           else objSet dest k0 v0) rest := rfl
    by_cases h0id : k0 = CKey.id
    · -- the entry is skipped
      subst h0id
      rw [hstep, if_pos rfl, ih dest k hnd2.2]
      by_cases hk : k = CKey.id
      · rw [if_pos hk, if_pos hk]
      · rw [if_neg hk, if_neg hk]
        have hmem_iff : k ∈ keysOf ((CKey.id, v0) :: rest) ↔
            k ∈ keysOf rest := by
          rw [mem_keysOf_cons]
          exact ⟨fun h => h.elim (fun he => absurd he hk) id, Or.inr⟩
        by_cases hmem : k ∈ keysOf rest
        · rw [if_pos hmem, if_pos (hmem_iff.mpr hmem)]
          by_cases hae : k = CKey.activeEffect
          · rw [if_pos hae, if_pos hae,
              objGet_cons_ne CKey.id v0 rest CKey.activeEffect (by decide)]
          · rw [if_neg hae, if_neg hae, objGet_cons_ne CKey.id v0 rest k
              (fun he => hk he.symm)]
        · rw [if_neg hmem, if_neg (fun hx => hmem (hmem_iff.mp hx))]
    · by_cases h0ae : k0 = CKey.activeEffect
      · -- the activeEffect entry
        subst h0ae
        rw [hstep, if_neg (by decide), if_pos rfl,
          ih (objSet dest .activeEffect
            (if cvTruthy (objGet dest .activeEffect) then
              aeUpdateSource (objGet dest .activeEffect) v0
            else newActiveEffect v0)) k hnd2.2]
        by_cases hk : k = CKey.id
        · rw [if_pos hk, if_pos hk, hk,
            objGet_objSet_other dest CKey.activeEffect CKey.id _
              (by decide)]
        · rw [if_neg hk, if_neg hk]
          by_cases hae : k = CKey.activeEffect
          · subst hae
            rw [if_neg hnd2.1,
              if_pos ((mem_keysOf_cons _ _ _ _).mpr (Or.inl rfl)),
              if_pos rfl, objGet_objSet_self,
              objGet_cons_self CKey.activeEffect v0 rest]
          · have hmem_iff : k ∈ keysOf ((CKey.activeEffect, v0) :: rest) ↔
                k ∈ keysOf rest := by
              rw [mem_keysOf_cons]
              exact ⟨fun h => h.elim (fun he => absurd he hae) id, Or.inr⟩
            by_cases hmem : k ∈ keysOf rest
            · rw [if_pos hmem, if_pos (hmem_iff.mpr hmem), if_neg hae,
                if_neg hae, objGet_cons_ne CKey.activeEffect v0 rest k
                  (fun he => hae he.symm)]
            · rw [if_neg hmem, if_neg (fun hx => hmem (hmem_iff.mp hx)),
                objGet_objSet_other dest CKey.activeEffect k _ hae]
      · -- a plain attribute entry
        rw [hstep, if_neg h0id, if_neg h0ae,
          ih (objSet dest k0 v0) k hnd2.2]
        by_cases hk : k = CKey.id
        · rw [if_pos hk, if_pos hk, hk,
            objGet_objSet_other dest k0 CKey.id v0
              (fun he => h0id he.symm)]
        · rw [if_neg hk, if_neg hk]
          have hgetae : objGet (objSet dest k0 v0) CKey.activeEffect =
              objGet dest CKey.activeEffect :=
            objGet_objSet_other dest k0 CKey.activeEffect v0
              (fun he => h0ae he.symm)
          by_cases hkk0 : k = k0
          · subst hkk0
            rw [if_neg hnd2.1,
              if_pos ((mem_keysOf_cons _ _ _ _).mpr (Or.inl rfl)),
              if_neg (fun he => h0ae he), objGet_objSet_self,
              objGet_cons_self k v0 rest]
          · have hmem_iff : k ∈ keysOf ((k0, v0) :: rest) ↔
                k ∈ keysOf rest := by
              rw [mem_keysOf_cons]
              exact ⟨fun h => h.elim (fun he => absurd he hkk0) id, Or.inr⟩
            by_cases hmem : k ∈ keysOf rest
            · rw [if_pos hmem, if_pos (hmem_iff.mpr hmem)]
              by_cases hae : k = CKey.activeEffect
              · rw [if_pos hae, if_pos hae, hgetae,
                  objGet_cons_ne k0 v0 rest CKey.activeEffect
                    (fun he => h0ae he)]
              · rw [if_neg hae, if_neg hae,
                  objGet_cons_ne k0 v0 rest k (fun he => hkk0 he.symm)]
            · rw [if_neg hmem, if_neg (fun hx => hmem (hmem_iff.mp hx)),
                objGet_objSet_other dest k0 k v0 (fun he => hkk0 he)]

/-- C6: serializing an entity and applying the result to a fresh entity
(no backing record) through `updateSource` reproduces every attribute
except the identifier, which keeps the destination's value (the `id` entry
is skipped silently), and creates a new backing record equal to the
source's from the serialized snapshot. -/
theorem config_roundtrip {δ : Type} [Inhabited δ] (e dest : Config δ)
    (d : δ) (hnd : (keysOf e).Nodup)
    (hae : objGet e CKey.activeEffect = CVal.eff d)
    (hfresh : cvTruthy (objGet dest CKey.activeEffect) = false) :
    (∀ k, k ≠ CKey.id → k ≠ CKey.activeEffect → k ∈ keysOf e →
      objGet (Config.updateSource dest (Config.toJSON e)) k = objGet e k) ∧
    objGet (Config.updateSource dest (Config.toJSON e))
      CKey.activeEffect = CVal.eff d ∧
    objGet (Config.updateSource dest (Config.toJSON e)) CKey.id =
      objGet dest CKey.id := by
  have haemem : CKey.activeEffect ∈ keysOf e :=
    mem_keysOf_of_objGet_ne e CKey.activeEffect (by rw [hae]; intro h; cases h)
  have hjson : Config.toJSON e = objSet e CKey.activeEffect (CVal.doc d) := by
    simp [Config.toJSON, hae, cvTruthy, aeToJSON]
  have hkeysJ : keysOf (Config.toJSON e) = keysOf e := by
    rw [hjson, keysOf_objSet, if_pos haemem]
  have hndJ : (keysOf (Config.toJSON e)).Nodup := by
    rw [hkeysJ]
    exact hnd
  have hgetJae : objGet (Config.toJSON e) CKey.activeEffect =
      CVal.doc d := by
    rw [hjson]
    exact objGet_objSet_self e CKey.activeEffect (CVal.doc d)
  have hgetJo : ∀ k, k ≠ CKey.activeEffect →
      objGet (Config.toJSON e) k = objGet e k := by
    intro k hk
    rw [hjson]
    exact objGet_objSet_other e CKey.activeEffect k (CVal.doc d) hk
  refine ⟨?_, ?_, ?_⟩
  · intro k hkid hkae hkmem
    rw [updateSource_objGet (Config.toJSON e) dest k hndJ, if_neg hkid,
      if_pos (by rw [hkeysJ]; exact hkmem), if_neg hkae]
    exact hgetJo k hkae
  · rw [updateSource_objGet (Config.toJSON e) dest CKey.activeEffect hndJ,
      if_neg (by decide),
      if_pos (show CKey.activeEffect ∈ keysOf (Config.toJSON e) by
        rw [hkeysJ]; exact haemem),
      if_pos rfl, hfresh, hgetJae]
    simp [newActiveEffect]
  · rw [updateSource_objGet (Config.toJSON e) dest CKey.id hndJ, if_pos rfl]

/-- C6 witness: a concrete entity with id, name, offset and a backing
record round-trips onto a fresh destination: name and offset are
reproduced, the backing record is recreated from the snapshot, and the
destination's id is untouched. -/
theorem config_roundtrip_witness :
    objGet (Config.updateSource ([(CKey.id, CVal.num 100)] : Config ℕ)
      (Config.toJSON [(CKey.id, CVal.num 9), (CKey.name, CVal.num 7),
        (CKey.offset, CVal.num 5), (CKey.activeEffect, CVal.eff 3)]))
      CKey.name = CVal.num 7 ∧
    objGet (Config.updateSource ([(CKey.id, CVal.num 100)] : Config ℕ)
      (Config.toJSON [(CKey.id, CVal.num 9), (CKey.name, CVal.num 7),
        (CKey.offset, CVal.num 5), (CKey.activeEffect, CVal.eff 3)]))
      CKey.activeEffect = CVal.eff 3 ∧
    objGet (Config.updateSource ([(CKey.id, CVal.num 100)] : Config ℕ)
      (Config.toJSON [(CKey.id, CVal.num 9), (CKey.name, CVal.num 7),
        (CKey.offset, CVal.num 5), (CKey.activeEffect, CVal.eff 3)]))
      CKey.id = CVal.num 100 := by
  obtain ⟨h1, h2, h3⟩ := config_roundtrip
    ([(CKey.id, CVal.num 9), (CKey.name, CVal.num 7),
      (CKey.offset, CVal.num 5), (CKey.activeEffect, CVal.eff 3)] :
      Config ℕ)
    ([(CKey.id, CVal.num 100)] : Config ℕ) 3
    (by decide) (by decide) (by decide)
  exact ⟨h1 CKey.name (by decide) (by decide) (by decide), h2,
    h3.trans (by decide)⟩
